import Mathlib

/-!
# Verification of the finance-tracker core logic

Shallow embedding of the pure logic of the income/expense tracker:

* the two Indian-numbering-system number-to-words converters
  (`src/src/utils/numberToWordsIndian.ts`, bucket-based; and the recursive
  one exported from the utility module captured as `src/unnamed/part_001`);
* the Dashboard pipeline (`src/unnamed/part_002`): filtering, totals,
  summary metrics, renewal reminders, CSV export, sorting;
* the Settings/Entries pipeline (`src/src/components/Settings.tsx`):
  multi-predicate filter and stable sort;
* the ingestion normalization (`src/src/services/api.ts`).

JavaScript numbers are modelled as rationals (exact for the integer and
short-decimal values these computations handle); machine strings as Lean
`String`; JS `undefined` flowing out of an array lookup as `Option String`.
-/

namespace FinTracker

/-! ## Number-to-words: shared word tables (identical in both source files) -/

def unitsW : List String :=
  ["", "One", "Two", "Three", "Four", "Five", "Six", "Seven", "Eight", "Nine"]

def teensW : List String :=
  ["Ten", "Eleven", "Twelve", "Thirteen", "Fourteen", "Fifteen", "Sixteen",
   "Seventeen", "Eighteen", "Nineteen"]

def tensW : List String :=
  ["", "", "Twenty", "Thirty", "Forty", "Fifty", "Sixty", "Seventy",
   "Eighty", "Ninety"]

/-- JS array lookup `a[i]` interpolated into a template literal: an
out-of-bounds index produces `undefined`, which a template renders as the
string `"undefined"`. -/
def lookupW (l : List String) (i : Nat) : String := l.getD i "undefined"

/-- Model of `String.prototype.trim`: strip leading and trailing
whitespace. -/
def isWs (c : Char) : Bool := c = ' ' || c = '\t' || c = '\n' || c = '\r'

def jsTrim (s : String) : String :=
  ⟨((s.data.dropWhile isWs).reverse.dropWhile isWs).reverse⟩

/-- `Array.prototype.join(sep)` (and the manual `[...].join(sep)` calls):
the elements separated by `sep`. -/
def joinSep (sep : String) : List String → String
  | [] => ""
  | [a] => a
  | a :: b :: rest => a ++ sep ++ joinSep sep (b :: rest)

/-! ## Bucket-based converter (`src/src/utils/numberToWordsIndian.ts`),
on non-negative integer inputs, where JS `Math.floor(n / d)` is `n / d`
and `n % d` is `n % d` on `Nat`. -/

/-- `convertTwoDigits` of `numberToWordsIndian.ts` lines 80-87. -/
def convertTwoDigits (num : Nat) : String :=
  if num = 0 then ""
  else if num < 10 then lookupW unitsW num
  else if num < 20 then lookupW teensW (num - 10)
  else
    let ten := num / 10
    let unit := num % 10
    if unit = 0 then lookupW tensW ten
    else lookupW tensW ten ++ " " ++ lookupW unitsW unit

/-- The `parts` array built by `numberToWordsIndian` (lines 47-70): one
entry per non-zero magnitude bucket, in descending-magnitude order.  The
`nonZeroUnits` array of the source receives a push exactly when `parts`
does, so `nonZeroUnits.length = parts.length`. -/
def bucketParts (num : Nat) : List String :=
  let crore := num / 10000000
  let lakh := num % 10000000 / 100000
  let thousand := num % 100000 / 1000
  let hundred := num % 1000 / 100
  let remainder := num % 100
  (if crore > 0 then [convertTwoDigits crore ++ " Crore"] else []) ++
  (if lakh > 0 then [convertTwoDigits lakh ++ " Lakh"] else []) ++
  (if thousand > 0 then [convertTwoDigits thousand ++ " Thousand"] else []) ++
  (if hundred > 0 then [lookupW unitsW hundred ++ " Hundred"] else []) ++
  (if remainder > 0 then [convertTwoDigits remainder] else [])

/-- `parts.splice(parts.length - 1, 0, 'and')` (line 74): insert `"and"`
at index `length - 1`. -/
def spliceAnd (parts : List String) : List String :=
  parts.take (parts.length - 1) ++ "and" :: parts.drop (parts.length - 1)

/-- `numberToWordsIndian` of `src/src/utils/numberToWordsIndian.ts`
(lines 38-78), on integer inputs. -/
def numberToWordsIndian (num : Nat) : String :=
  if num = 0 then "Zero"
  else
    let parts := bucketParts num
    let parts := if parts.length > 1 then spliceAnd parts else parts
    jsTrim (joinSep " " parts)

/-! ## Recursive converter (`src/unnamed/part_001`)

The inner `numToWords` closure recurses on strictly smaller arguments
(`rest < n`, `n / 100 < n`, `n / 1000 < n`, ...), so it is embedded with a
fuel parameter that strictly decreases at each call; `fuel = n` always
suffices, and `numToWordsAux_congr` shows the result is fuel-independent. -/

def numToWordsAux : Nat → Nat → String
  | 0, _ => ""
  | fuel + 1, n =>
    if n = 0 then ""
    else if n < 10 then lookupW unitsW n
    else if n < 20 then lookupW teensW (n - 10)
    else if n < 100 then
      let ten := n / 10
      let unit := n % 10
      lookupW tensW ten ++ (if unit ≠ 0 then " " ++ lookupW unitsW unit else "")
    else if n < 1000 then
      let hundred := n / 100
      let rest := n % 100
      lookupW unitsW hundred ++ " Hundred" ++
        (if rest ≠ 0 then " " ++ numToWordsAux fuel rest else "")
    else if n < 100000 then
      let thousand := n / 1000
      let rest := n % 1000
      numToWordsAux fuel thousand ++ " Thousand" ++
        (if rest ≠ 0 then " " ++ numToWordsAux fuel rest else "")
    else if n < 10000000 then
      let lakh := n / 100000
      let rest := n % 100000
      numToWordsAux fuel lakh ++ " Lakh" ++
        (if rest ≠ 0 then " " ++ numToWordsAux fuel rest else "")
    else
      let crore := n / 10000000
      let rest := n % 10000000
      numToWordsAux fuel crore ++ " Crore" ++
        (if rest ≠ 0 then " " ++ numToWordsAux fuel rest else "")

/-- The inner `numToWords` of `part_001` (lines 43-72), on integer
inputs. -/
def numToWords (n : Nat) : String := numToWordsAux n n

/-- `numberToWordsIndian` of `src/unnamed/part_001` (lines 2-76) on
integer inputs, for which the `Math.floor` on line 74 is the identity. -/
def numberToWordsIndianRec (num : Nat) : String :=
  if num = 0 then "Zero" else jsTrim (numToWords num)

/-! ## The converters on arbitrary (possibly fractional) numeric input

JS numbers are modelled as rationals, exact for the short decimal values
at issue.  `Math.floor` is `Rat.floor`; for non-negative operands the JS
remainder `x % y` is `x - y * Math.floor(x / y)`.  An array lookup at a
fractional or out-of-range index yields `undefined` (`none`); a template
literal renders `undefined` as `"undefined"`, while `Array.prototype.join`
renders it as `""`. -/

attribute [local semireducible] Rat.sub Rat.mul Rat.inv Rat.add

def jsModQ (x y : ℚ) : ℚ := x - y * ((x / y).floor : ℚ)

def lookupQ (l : List String) (q : ℚ) : Option String :=
  if q.den = 1 ∧ 0 ≤ q.num ∧ q.num.toNat < l.length then
    some (l.getD q.num.toNat "")
  else none

/-- A possibly-`undefined` value interpolated into a template literal. -/
def tmplStr (o : Option String) : String := o.getD "undefined"

/-- A possibly-`undefined` array element as rendered by `join`. -/
def joinStr (o : Option String) : String := o.getD ""

/-- `convertTwoDigits` of `numberToWordsIndian.ts` on arbitrary numeric
input.  The bare-return branches pass the raw (possibly `undefined`)
array element through, hence `Option String`. -/
def convertTwoDigitsQ (num : ℚ) : Option String :=
  if num = 0 then some ""
  else if num < 10 then lookupQ unitsW num
  else if num < 20 then lookupQ teensW (num - 10)
  else
    let ten : ℚ := (((num / 10).floor : ℤ) : ℚ)
    let unit : ℚ := jsModQ num 10
    if unit = 0 then lookupQ tensW ten
    else some (tmplStr (lookupQ tensW ten) ++ " " ++ tmplStr (lookupQ unitsW unit))

/-- The `parts` array of `numberToWordsIndian` (bucket version) on
arbitrary numeric input. -/
def bucketPartsQ (num : ℚ) : List (Option String) :=
  let crore : ℚ := (((num / 10000000).floor : ℤ) : ℚ)
  let lakh : ℚ := ((((jsModQ num 10000000) / 100000).floor : ℤ) : ℚ)
  let thousand : ℚ := ((((jsModQ num 100000) / 1000).floor : ℤ) : ℚ)
  let hundred : ℚ := ((((jsModQ num 1000) / 100).floor : ℤ) : ℚ)
  let remainder : ℚ := jsModQ num 100
  (if crore > 0 then [some (tmplStr (convertTwoDigitsQ crore) ++ " Crore")] else []) ++
  (if lakh > 0 then [some (tmplStr (convertTwoDigitsQ lakh) ++ " Lakh")] else []) ++
  (if thousand > 0 then [some (tmplStr (convertTwoDigitsQ thousand) ++ " Thousand")] else []) ++
  (if hundred > 0 then [some (tmplStr (lookupQ unitsW hundred) ++ " Hundred")] else []) ++
  (if remainder > 0 then [convertTwoDigitsQ remainder] else [])

def spliceAndQ (parts : List (Option String)) : List (Option String) :=
  parts.take (parts.length - 1) ++ some "and" :: parts.drop (parts.length - 1)

/-- The bucket-based `numberToWordsIndian` on arbitrary numeric input. -/
def numberToWordsIndianQ (num : ℚ) : String :=
  if num = 0 then "Zero"
  else
    let parts := bucketPartsQ num
    let parts := if parts.length > 1 then spliceAndQ parts else parts
    jsTrim (joinSep " " (parts.map joinStr))

/-- The recursive `numberToWordsIndian` of `part_001` on arbitrary
numeric input: it floors first (`num = Math.floor(num)`, line 74).  The
caller contract restricts inputs to non-negative values, for which
`Math.floor` is `Rat.floor` followed by `Int.toNat`. -/
def numberToWordsIndianRecQ (num : ℚ) : String :=
  if num = 0 then "Zero" else jsTrim (numToWords num.floor.toNat)

/-! ## Dates

The app stores dates as `YYYY-MM-DD` strings and parses them with
`new Date(string)`.  The model covers the date-only ISO form, which JS
parses as UTC midnight, rejecting out-of-range components (`NaN`,
modelled as `none`); any other string is outside the model and maps to
`none` as well.  A timestamp is milliseconds since the Unix epoch. -/

def digitVal (c : Char) : Nat := c.toNat - '0'.toNat

def isLeap (y : Nat) : Bool := (y % 4 = 0 && y % 100 ≠ 0) || y % 400 = 0

def daysInMonth (y m : Nat) : Nat :=
  if m = 1 ∨ m = 3 ∨ m = 5 ∨ m = 7 ∨ m = 8 ∨ m = 10 ∨ m = 12 then 31
  else if m = 4 ∨ m = 6 ∨ m = 9 ∨ m = 11 then 30
  else if isLeap y then 29 else 28

def parseISODate (s : String) : Option (Nat × Nat × Nat) :=
  match s.data with
  | [y1, y2, y3, y4, h1, m1, m2, h2, d1, d2] =>
    if y1.isDigit && y2.isDigit && y3.isDigit && y4.isDigit && h1 = '-' &&
       m1.isDigit && m2.isDigit && h2 = '-' && d1.isDigit && d2.isDigit then
      let y := 1000 * digitVal y1 + 100 * digitVal y2 + 10 * digitVal y3 + digitVal y4
      let m := 10 * digitVal m1 + digitVal m2
      let d := 10 * digitVal d1 + digitVal d2
      if 1 ≤ m ∧ m ≤ 12 ∧ 1 ≤ d ∧ d ≤ daysInMonth y m then some (y, m, d) else none
    else none
  | _ => none

/-- Days since 1970-01-01 of a proleptic-Gregorian civil date
(the standard era/year-of-era day count).  For the parser's year range
`0..9999` every division below has a non-negative dividend except the
exact `-400 / 400` case, so the result does not depend on the rounding
convention of integer division. -/
def daysFromCivil (y m d : Nat) : ℤ :=
  let y' : ℤ := if m ≤ 2 then (y : ℤ) - 1 else (y : ℤ)
  let era : ℤ := (if 0 ≤ y' then y' else y' - 399) / 400
  let yoe : Nat := (y' - era * 400).toNat
  let mp : Nat := (m + 9) % 12
  let doy : Nat := (153 * mp + 2) / 5 + d - 1
  let doe : Nat := yoe * 365 + yoe / 4 - yoe / 100 + doy
  era * 146097 + (doe : ℤ) - 719468

/-- `new Date(s).getTime()` for a date-only ISO string: UTC midnight, in
milliseconds; `none` models `NaN` (an invalid date). -/
def jsDateMs (s : String) : Option ℤ :=
  (parseISODate s).map (fun p => 86400000 * daysFromCivil p.1 p.2.1 p.2.2)

/-! ## The Entry record (shared `Entry` interface of `api.ts`,
`Settings.tsx` and the Dashboard) -/

inductive EntryType where
  | income
  | expense
deriving DecidableEq, Repr

def typeStr : EntryType → String
  | .income => "Income"
  | .expense => "Expense"

structure Entry where
  id : String
  name : String
  contact : String
  type : EntryType
  category : String
  amount : ℚ
  date : String
  renewDate : String
  renewDateReminder : Nat
  property : String
deriving DecidableEq, Repr

/-! ## JS string and number helpers used by the pipelines -/

/-- `String(x)` / `x.toString()` for a JS number with a finite decimal
expansion (integers print without a point; otherwise the exact shortest
decimal expansion).  Numeric values without a finite decimal expansion do
not arise in the app and are rendered as a fraction here. -/
def decExp (den : Nat) : Option Nat := (List.range 40).find? (fun k => den ∣ 10 ^ k)

def ratToString (q : ℚ) : String :=
  let sign := if q < 0 then "-" else ""
  let n := q.num.natAbs
  let d := q.den
  if d = 1 then sign ++ toString n
  else
    match decExp d with
    | some k =>
      let scaled := n * 10 ^ k / d
      let ip := scaled / 10 ^ k
      let fs := toString (scaled % 10 ^ k)
      let pad := String.mk (List.replicate (k - fs.length) '0')
      sign ++ toString ip ++ "." ++ pad ++ fs
    | none => sign ++ toString n ++ "/" ++ toString d

/-- `s.toLowerCase()` (ASCII case mapping; the app's data is ASCII). -/
def jsToLower (s : String) : String := ⟨s.data.map Char.toLower⟩

/-- `a.includes(b)`: `b` occurs contiguously inside `a`. -/
def subOf : List Char → List Char → Bool
  | n, [] => n.isEmpty
  | n, c :: cs => n.isPrefixOf (c :: cs) || subOf n cs

def jsIncludes (a b : String) : Bool := subOf b.data a.data

/-- `Number(s)` for a user-typed amount bound: a decimal literal gives
its value, anything else gives `NaN` (`none`).  (The empty string is
never passed: the code tests JS truthiness first.) -/
def natOfDigits (cs : List Char) : Nat := cs.foldl (fun a c => 10 * a + digitVal c) 0

def jsNumber (s : String) : Option ℚ :=
  let core : List Char → Option ℚ := fun t =>
    let ip := t.takeWhile (· ≠ '.')
    match t.drop ip.length with
    | [] => if ip ≠ [] ∧ ip.all Char.isDigit then some (natOfDigits ip : ℚ) else none
    | '.' :: fp =>
      if ip.all Char.isDigit ∧ fp.all Char.isDigit ∧ (ip ≠ [] ∨ fp ≠ []) then
        some ((natOfDigits ip : ℚ) + (natOfDigits fp : ℚ) / (10 ^ fp.length : ℚ))
      else none
    | _ => none
  match s.data with
  | '-' :: rest => (core rest).map (fun q => -q)
  | cs => core cs

/-! ## The Settings/Entries filter (`Settings.tsx`, `filteredEntries`,
lines 937-996) -/

/-- The `filterConfig` state of `Settings.tsx` (string-typed form
fields; `"All"` disables the `type`/`category`/`property` predicates,
the empty string disables the others). -/
structure FilterConfig where
  name : String
  contact : String
  type : String
  category : String
  amountMin : String
  amountMax : String
  dateStart : String
  dateEnd : String
  property : String
deriving Repr

/-- `Object.values(entry)`, in the field insertion order of the records
built by the fetch mapping, each converted with `.toString()`. -/
def entryValues (e : Entry) : List String :=
  [e.id, e.name, e.contact, typeStr e.type, e.category, ratToString e.amount,
   e.date, e.renewDate, toString e.renewDateReminder, e.property]

def matchesSearch (term : String) (e : Entry) : Bool :=
  if term = "" then true
  else (entryValues e).any (fun v => jsIncludes (jsToLower v) (jsToLower term))

def matchesName (cfg : FilterConfig) (e : Entry) : Bool :=
  if cfg.name = "" then true
  else jsIncludes (jsToLower e.name) (jsToLower cfg.name)

def matchesContact (cfg : FilterConfig) (e : Entry) : Bool :=
  if cfg.contact = "" then true
  else jsIncludes (jsToLower e.contact) (jsToLower cfg.contact)

def matchesType (cfg : FilterConfig) (e : Entry) : Bool :=
  if cfg.type ≠ "All" then typeStr e.type == cfg.type else true

def matchesCategory (cfg : FilterConfig) (e : Entry) : Bool :=
  if cfg.category ≠ "All" then e.category == cfg.category else true

/-- `matchesAmount`: a blank bound is `±Infinity` (which every amount
satisfies); a non-numeric bound is `NaN`, whose comparisons are all
false. -/
def matchesAmount (cfg : FilterConfig) (e : Entry) : Bool :=
  (if cfg.amountMin = "" then true
   else match jsNumber cfg.amountMin with
     | some m => decide (m ≤ e.amount)
     | none => false) &&
  (if cfg.amountMax = "" then true
   else match jsNumber cfg.amountMax with
     | some m => decide (e.amount ≤ m)
     | none => false)

/-- `matchesDate`: a blank bound is the JS min/max representable date,
which every parsable date satisfies; an entry whose `date` does not
parse gives `NaN` comparisons, which are all false. -/
def matchesDate (cfg : FilterConfig) (e : Entry) : Bool :=
  match jsDateMs e.date with
  | none => false
  | some t =>
    (if cfg.dateStart = "" then true
     else match jsDateMs cfg.dateStart with
       | some s => decide (s ≤ t)
       | none => false) &&
    (if cfg.dateEnd = "" then true
     else match jsDateMs cfg.dateEnd with
       | some s => decide (t ≤ s)
       | none => false)

def matchesProperty (cfg : FilterConfig) (e : Entry) : Bool :=
  if cfg.property ≠ "All" then e.property == cfg.property else true

def settingsPred (term : String) (cfg : FilterConfig) (e : Entry) : Bool :=
  matchesSearch term e && matchesName cfg e && matchesContact cfg e &&
  matchesType cfg e && matchesCategory cfg e && matchesAmount cfg e &&
  matchesDate cfg e && matchesProperty cfg e

/-- The filtering stage of `filteredEntries` in `Settings.tsx`
(lines 938-996). -/
def filterEntries (term : String) (cfg : FilterConfig) (l : List Entry) : List Entry :=
  l.filter (settingsPred term cfg)

/-! ## Sorting (`Settings.tsx` lines 997-1013; the Dashboard's
`lastFiveEntries` comparator, lines 346-365 of `part_002`, is the same
without the `monthYear` key)

`String.prototype.localeCompare` with no locale argument uses the
runtime's default collation (ICU root / en): strings compare primarily
case-insensitively (ASCII: by the case-folded character sequence, digits
before letters), and a tie is broken by case, lower case ordering before
upper case.  `lexLt` is strict lexicographic order on weight lists. -/

def lexLt : List Nat → List Nat → Bool
  | [], [] => false
  | [], _ :: _ => true
  | _ :: _, [] => false
  | a :: as, b :: bs => if a < b then true else if b < a then false else lexLt as bs

/-- Primary collation weights: the case-folded character codes. -/
def collP (s : String) : List Nat := s.data.map (fun c => c.toLower.toNat)

/-- Tertiary collation weights: lower case before upper case. -/
def collT (s : String) : List Nat := s.data.map (fun c => if c.isUpper then 1 else 0)

/-- `a.localeCompare(b)` under the default-locale collation, restricted
to the ASCII data the app handles. -/
def localeCompare (a b : String) : ℤ :=
  if lexLt (collP a) (collP b) then -1
  else if lexLt (collP b) (collP a) then 1
  else if lexLt (collT a) (collT b) then -1
  else if lexLt (collT b) (collT a) then 1
  else 0

/-- The sort key of `Settings.tsx` (`keyof Entry | 'amount' |
'monthYear'`). -/
inductive SortKey where
  | id
  | name
  | contact
  | typ
  | category
  | amount
  | date
  | renewDate
  | renewDateReminder
  | property
  | monthYear
deriving DecidableEq, Repr

inductive SortDir where
  | asc
  | desc
deriving DecidableEq, Repr

/-- `String(a[sortConfig.key])` for the keys that reach the
`localeCompare` branch. -/
def fieldStr (k : SortKey) (e : Entry) : String :=
  match k with
  | .id => e.id
  | .name => e.name
  | .contact => e.contact
  | .typ => typeStr e.type
  | .category => e.category
  | .amount => ratToString e.amount
  | .date => e.date
  | .renewDate => e.renewDate
  | .renewDateReminder => toString e.renewDateReminder
  | .property => e.property
  | .monthYear => ""

/-- The comparator of `Settings.tsx` lines 997-1013, as a signed
number.  For the `date`/`monthYear` keys an unparsable date makes
`getTime()` `NaN`, and the ECMAScript `SortCompare` treats a `NaN`
comparator result as `0`. -/
def entryCmp (k : SortKey) (dir : SortDir) (a b : Entry) : ℚ :=
  if k = .date ∨ k = .monthYear then
    match jsDateMs a.date, jsDateMs b.date with
    | some ta, some tb =>
      match dir with
      | .asc => (ta : ℚ) - (tb : ℚ)
      | .desc => (tb : ℚ) - (ta : ℚ)
    | _, _ => 0
  else if k = .amount then
    match dir with
    | .asc => a.amount - b.amount
    | .desc => b.amount - a.amount
  else
    match dir with
    | .asc => (localeCompare (fieldStr k a) (fieldStr k b) : ℚ)
    | .desc => (localeCompare (fieldStr k b) (fieldStr k a) : ℚ)

/-- `Array.prototype.sort` is required (ES2019+) to be stable; with a
consistent comparator its result is the unique stable sort by the
comparator, modelled by `List.mergeSort` with `le a b ↔ cmp a b ≤ 0`. -/
def sortLe (k : SortKey) (dir : SortDir) (a b : Entry) : Bool :=
  decide (entryCmp k dir a b ≤ 0)

/-- The sorting stage of `filteredEntries` in `Settings.tsx`. -/
def sortEntries (k : SortKey) (dir : SortDir) (l : List Entry) : List Entry :=
  l.mergeSort (sortLe k dir)

/-- `filteredEntries` of `Settings.tsx` (lines 937-1014): filter, then
sort. -/
def filteredEntries (term : String) (cfg : FilterConfig) (k : SortKey) (dir : SortDir)
    (l : List Entry) : List Entry :=
  sortEntries k dir (filterEntries term cfg l)

/-! ## Aggregates (`totals` and `summaryMetrics` of the Dashboard,
`part_002` lines 214-250; `totals` of `Settings.tsx` is identical) -/

/-- One partition of `totals`: `reduce` over the entries of one type,
accumulating `{amount, count}` from `{0, 0}`. -/
def totalsFor (t : EntryType) (l : List Entry) : ℚ × Nat :=
  (l.filter (fun e => e.type = t)).foldl
    (fun acc e => (acc.1 + e.amount, acc.2 + 1)) (0, 0)

structure SummaryMetrics where
  netBalance : ℚ
  avgIncome : ℚ
  avgExpense : ℚ
  totalTransactions : Nat
deriving Repr

/-- `summaryMetrics` of `part_002` lines 236-250. -/
def summaryMetrics (l : List Entry) : SummaryMetrics :=
  let income := totalsFor .income l
  let expense := totalsFor .expense l
  { netBalance := income.1 - expense.1
    avgIncome := if income.2 > 0 then income.1 / (income.2 : ℚ) else 0
    avgExpense := if expense.2 > 0 then expense.1 / (expense.2 : ℚ) else 0
    totalTransactions := income.2 + expense.2 }

/-! ## Renewal reminders (`daysUntil` and `reminderEntries` of
`part_002`, lines 252-290) -/

/-- `daysUntil`: `ceil((renew - from) / 86400000)` in days; `none`
models the `Infinity` returned when either date is invalid. -/
def daysUntil (date fromDate : String) : Option ℤ :=
  match jsDateMs date, jsDateMs fromDate with
  | some r, some f => some (((r : ℚ) - (f : ℚ)) / (1000 * 60 * 60 * 24)).ceil
  | _, _ => none

inductive RStatus where
  | approaching
  | due
  | pastDue
deriving DecidableEq, Repr

/-- The status strings rendered by the Dashboard table. -/
def statusStr : RStatus → String
  | .approaching => "Approaching"
  | .due => "Due"
  | .pastDue => "Past Due"

/-- The comparator of the final `.sort` of `reminderEntries` (ascending
by `renewDate` instant), as `le`. -/
def remLe (a b : Entry × RStatus) : Bool :=
  match jsDateMs a.1.renewDate, jsDateMs b.1.renewDate with
  | some x, some y => decide (x ≤ y)
  | _, _ => true

/-- The `.map` body of `reminderEntries` (lines 266-279): status
assignment for one entry, `none` for the `null` (not yet in the
reminder window) case. -/
def reminderStep (today : String) (e : Entry) : Option (Entry × RStatus) :=
  match daysUntil e.renewDate today with
  | none => none
  | some d =>
    if d = 0 then some (e, RStatus.due)
    else if d < 0 then some (e, RStatus.pastDue)
    else if d ≤ (e.renewDateReminder : ℤ) then some (e, RStatus.approaching)
    else none

/-- `reminderEntries` of `part_002` lines 260-290: keep entries with a
positive reminder and finite `daysUntil`; map each to `{...entry,
status}` or `null` (dropped); sort ascending by `renewDate`. -/
def reminderEntries (entries : List Entry) (today : String) : List (Entry × RStatus) :=
  ((entries.filter (fun e =>
      decide (0 < e.renewDateReminder) && (daysUntil e.renewDate today).isSome)).filterMap
    (reminderStep today)).mergeSort remLe

/-! ## CSV export (`handleCSVExport` of `part_002`, lines 292-344) -/

/-- `s.replace(/"/g, '""')`. -/
def escapeQuotes (s : String) : String :=
  ⟨s.data.flatMap (fun c => if c = '"' then ['"', '"'] else [c])⟩

/-- `"..."` wrapping of one CSV field. -/
def csvQuote (s : String) : String := "\"" ++ s ++ "\""

/-- The month-name table of `toLocaleString('en-US', {month: 'short'})`. -/
def monthShort : List String :=
  ["Jan", "Feb", "Mar", "Apr", "May", "Jun", "Jul", "Aug", "Sep", "Oct", "Nov", "Dec"]

/-- `new Date(s).toLocaleString('en-US', {month: 'short', year:
'numeric'})`, for a runtime in the UTC timezone (a non-UTC local zone
would shift UTC midnight into the previous day). -/
def monthYearStr (s : String) : String :=
  match parseISODate s with
  | some (y, m, _) => monthShort.getD (m - 1) "" ++ " " ++ toString y
  | none => "Invalid Date"

/-- One data row of the CSV export (lines 307-325): note that only
`amountInWords`, `name` and `contact` pass through `escapeQuotes`. -/
def csvRow (e : Entry) : String :=
  joinSep ","
    [csvQuote e.id,
     csvQuote e.date,
     csvQuote (typeStr e.type),
     csvQuote e.category,
     csvQuote (ratToString e.amount),
     csvQuote (escapeQuotes (numberToWordsIndianQ e.amount)),
     csvQuote (escapeQuotes e.name),
     csvQuote (escapeQuotes e.contact),
     csvQuote (monthYearStr e.date),
     csvQuote e.renewDate,
     csvQuote (toString e.renewDateReminder),
     csvQuote e.property]

def csvHeader : String :=
  joinSep ","
    ["id", "date", "type", "category", "amount", "amountInWords", "name",
     "contact", "monthYear", "renewDate", "renewDateReminder", "property"]

/-- `csvContent`: the header line followed by one row per filtered
entry, joined with newlines. -/
def csvContent (filtered : List Entry) : String :=
  joinSep "\n" (csvHeader :: filtered.map csvRow)

/-! ## Ingestion normalization (`api.ts` `getEntries` lines 57-61, and
the identical mapping in the Dashboard subscription, `part_002` lines
97-101) -/

/-- `Number(data.renewDateReminder)`, where `none` models `NaN` (the
result for non-numeric stored values). -/
def normalizeReminder (raw : Option ℚ) : Nat :=
  match raw with
  | none => 0
  | some x => if x ∈ ([0, 5, 10, 15] : List ℚ) then x.num.toNat else 0

/-! ## Concrete records used by counterexamples and witnesses -/

/-- A `FilterConfig` with no predicate specified. -/
def emptyFilter : FilterConfig :=
  { name := "", contact := "", type := "All", category := "All", amountMin := "",
    amountMax := "", dateStart := "", dateEnd := "", property := "All" }

/-- An entry whose `date` field does not parse. -/
def badDateEntry : Entry :=
  { id := "e1", name := "Tenant", contact := "123", type := .income,
    category := "Rent", amount := 100, date := "not-a-date", renewDate := "",
    renewDateReminder := 0, property := "Home" }

/-- An income entry with a parsable date. -/
def c6Entry : Entry :=
  { id := "e3", name := "Ann", contact := "9", type := .income,
    category := "Salary", amount := 100, date := "2025-06-10", renewDate := "",
    renewDateReminder := 0, property := "Home" }

/-- An entry with an embedded double quote in its `property` field. -/
def quoteEntry : Entry :=
  { id := "e2", name := "Ann", contact := "c", type := .expense,
    category := "Maintenance", amount := 5, date := "2025-06-10", renewDate := "",
    renewDateReminder := 5, property := "A\"B" }

/-- "Equal sort key" for a given sort key: equal instant for the
date-valued keys, equal number for `amount`, equal string form
otherwise. -/
def sortKeyEq (k : SortKey) (a b : Entry) : Prop :=
  if k = .date ∨ k = .monthYear then jsDateMs a.date = jsDateMs b.date
  else if k = .amount then a.amount = b.amount
  else fieldStr k a = fieldStr k b

/-- Two entries differing only in name case ordering (`"a"` vs `"B"`). -/
def entryLowerA : Entry :=
  { id := "e4", name := "a", contact := "", type := .income, category := "",
    amount := 1, date := "2025-06-10", renewDate := "", renewDateReminder := 0,
    property := "" }

def entryUpperB : Entry :=
  { id := "e5", name := "B", contact := "", type := .income, category := "",
    amount := 2, date := "2025-06-11", renewDate := "", renewDateReminder := 0,
    property := "" }

/-- An entry three days from renewal with a five-day reminder window. -/
def remEntry : Entry :=
  { id := "r1", name := "Lease", contact := "", type := .income, category := "",
    amount := 1, date := "2025-06-01", renewDate := "2025-06-13",
    renewDateReminder := 5, property := "" }

/-- Two distinct entries with the same name, for the stability witness. -/
def twinEntry1 : Entry :=
  { id := "e6", name := "Ann", contact := "1", type := .income, category := "",
    amount := 1, date := "2025-06-10", renewDate := "", renewDateReminder := 0,
    property := "" }

def twinEntry2 : Entry :=
  { id := "e7", name := "Ann", contact := "2", type := .expense, category := "",
    amount := 2, date := "2025-06-11", renewDate := "", renewDateReminder := 0,
    property := "" }

/-- A string that is non-empty and has no leading or trailing
whitespace (so that `jsTrim` leaves it unchanged). -/
structure GoodStr (s : String) : Prop where
  ne : s.data ≠ []
  head : ∀ c ∈ s.data.head?, isWs c = false
  last : ∀ c ∈ s.data.getLast?, isWs c = false

def goodStrB (s : String) : Bool :=
  match s.data with
  | [] => false
  | c :: cs => !isWs c && !isWs ((c :: cs).getLast (List.cons_ne_nil c cs))

/-! ## Generic lemmas -/

theorem numToWordsAux_congr : ∀ (n f g : Nat), n ≤ f → n ≤ g →
    numToWordsAux f n = numToWordsAux g n := by
  intro n
  induction n using Nat.strong_induction_on with
  | _ n ih =>
    intro f g hf hg
    match f, g with
    | 0, 0 => rfl
    | 0, g' + 1 =>
      interval_cases n
      rfl
    | f' + 1, 0 =>
      interval_cases n
      rfl
    | f' + 1, g' + 1 =>
        rw [numToWordsAux, numToWordsAux]
        have hrec : ∀ m, m < n → numToWordsAux f' m = numToWordsAux g' m := by
          intro m hm
          exact ih m hm f' g' (by omega) (by omega)
        by_cases h0 : n = 0
        · simp [h0]
        · simp only [if_neg h0]
          by_cases h10 : n < 10
          · simp [h10]
          · simp only [if_neg h10]
            by_cases h20 : n < 20
            · simp [h20]
            · simp only [if_neg h20]
              by_cases h100 : n < 100
              · simp [h100]
              · simp only [if_neg h100]
                by_cases h1000 : n < 1000
                · rw [if_pos h1000, if_pos h1000,
                    hrec (n % 100) (by omega)]
                · simp only [if_neg h1000]
                  by_cases h100000 : n < 100000
                  · rw [if_pos h100000, if_pos h100000,
                      hrec (n / 1000) (by omega), hrec (n % 1000) (by omega)]
                  · simp only [if_neg h100000]
                    by_cases hL : n < 10000000
                    · rw [if_pos hL, if_pos hL,
                        hrec (n / 100000) (by omega), hrec (n % 100000) (by omega)]
                    · rw [if_neg hL, if_neg hL,
                        hrec (n / 10000000) (by omega), hrec (n % 10000000) (by omega)]

/-- Unfolding equation for `numToWords`, mirroring the source recursion. -/
theorem numToWords_eq (n : Nat) : numToWords n =
    (if n = 0 then ""
    else if n < 10 then lookupW unitsW n
    else if n < 20 then lookupW teensW (n - 10)
    else if n < 100 then
      lookupW tensW (n / 10) ++
        (if n % 10 ≠ 0 then " " ++ lookupW unitsW (n % 10) else "")
    else if n < 1000 then
      lookupW unitsW (n / 100) ++ " Hundred" ++
        (if n % 100 ≠ 0 then " " ++ numToWords (n % 100) else "")
    else if n < 100000 then
      numToWords (n / 1000) ++ " Thousand" ++
        (if n % 1000 ≠ 0 then " " ++ numToWords (n % 1000) else "")
    else if n < 10000000 then
      numToWords (n / 100000) ++ " Lakh" ++
        (if n % 100000 ≠ 0 then " " ++ numToWords (n % 100000) else "")
    else
      numToWords (n / 10000000) ++ " Crore" ++
        (if n % 10000000 ≠ 0 then " " ++ numToWords (n % 10000000) else "")) := by
  unfold numToWords
  by_cases h0 : n = 0
  · subst h0; rfl
  · obtain ⟨n', rfl⟩ : ∃ m, n = m + 1 := ⟨n - 1, by omega⟩
    rw [numToWordsAux]
    have hc : ∀ m, m ≤ n' → numToWordsAux n' m = numToWordsAux m m := by
      intro m hm
      exact numToWordsAux_congr m n' m hm le_rfl
    by_cases h10 : n' + 1 < 10
    · simp [h10]
    · simp only [if_neg h0, if_neg h10]
      by_cases h20 : n' + 1 < 20
      · simp [h20]
      · simp only [if_neg h20]
        by_cases h100 : n' + 1 < 100
        · simp [h100]
        · simp only [if_neg h100]
          by_cases h1000 : n' + 1 < 1000
          · rw [if_pos h1000, if_pos h1000, hc ((n' + 1) % 100) (by omega)]
          · simp only [if_neg h1000]
            by_cases h100000 : n' + 1 < 100000
            · rw [if_pos h100000, if_pos h100000,
                hc ((n' + 1) / 1000) (by omega), hc ((n' + 1) % 1000) (by omega)]
            · simp only [if_neg h100000]
              by_cases hL : n' + 1 < 10000000
              · rw [if_pos hL, if_pos hL,
                  hc ((n' + 1) / 100000) (by omega), hc ((n' + 1) % 100000) (by omega)]
              · rw [if_neg hL, if_neg hL,
                  hc ((n' + 1) / 10000000) (by omega), hc ((n' + 1) % 10000000) (by omega)]

theorem mergeSort_pair {α : Type} (le : α → α → Bool) (a b : α) :
    [a, b].mergeSort le = if le a b then [a, b] else [b, a] := by
  rw [List.mergeSort]
  simp only [List.splitInTwo_fst, List.splitInTwo_snd]
  norm_num
  rw [List.cons_merge_cons]
  split <;> simp

/-- A stable sort leaves any class of pairwise-equivalent elements in
input order: filtering the output by a predicate whose satisfying
elements are pairwise `le`-equivalent returns the same list as
filtering the input. -/
theorem mergeSort_filter_stable {α : Type} (le : α → α → Bool)
    (htrans : ∀ a b c, le a b → le b c → le a c)
    (htotal : ∀ a b, le a b || le b a)
    (p : α → Bool) (hp : ∀ x y, p x → p y → le x y) (l : List α) :
    (l.mergeSort le).filter p = l.filter p := by
  have hsub : List.Sublist (l.filter p) l := List.filter_sublist l
  have hpw : (l.filter p).Pairwise (fun a b => le a b) := by
    apply List.pairwise_of_forall_mem_list
    intro a ha b hb
    exact hp a b (List.mem_filter.mp ha).2 (List.mem_filter.mp hb).2
  have h1 : List.Sublist (l.filter p) (l.mergeSort le) :=
    List.sublist_mergeSort htrans htotal hpw hsub
  have h2 : List.Sublist ((l.filter p).filter p) ((l.mergeSort le).filter p) :=
    h1.filter p
  have hff : (l.filter p).filter p = l.filter p := by
    rw [List.filter_filter]
    simp
  rw [hff] at h2
  have hlen : (l.filter p).length = ((l.mergeSort le).filter p).length := by
    rw [← List.countP_eq_length_filter, ← List.countP_eq_length_filter]
    exact ((List.mergeSort_perm l le).countP_eq p).symm
  exact (h2.eq_of_length hlen).symm

theorem goodStr_of_B {s : String} (h : goodStrB s = true) : GoodStr s := by
  unfold goodStrB at h
  cases hd : s.data with
  | nil =>
    rw [hd] at h
    cases h
  | cons c cs =>
    rw [hd] at h
    simp only [Bool.and_eq_true, Bool.not_eq_true'] at h
    refine ⟨by simp [hd], ?_, ?_⟩
    · intro x hx
      rw [hd] at hx
      simp only [List.head?_cons, Option.mem_def, Option.some.injEq] at hx
      subst hx
      exact h.1
    · intro x hx
      rw [hd] at hx
      have he : (c :: cs).getLast? = some ((c :: cs).getLast (List.cons_ne_nil c cs)) := rfl
      rw [he] at hx
      simp only [Option.mem_def, Option.some.injEq] at hx
      subst hx
      exact h.2

theorem GoodStr.appendRight {a b : String} (ha : GoodStr a) (hne : b.data ≠ [])
    (hlast : ∀ c ∈ b.data.getLast?, isWs c = false) : GoodStr (a ++ b) := by
  constructor
  · rw [String.data_append]
    simp [ha.ne]
  · rw [String.data_append, List.head?_append_of_ne_nil _ ha.ne]
    exact ha.head
  · rw [String.data_append, List.getLast?_append_of_ne_nil _ hne]
    exact hlast

theorem GoodStr.appendSep {a sep b : String} (ha : GoodStr a) (hb : GoodStr b) :
    GoodStr (a ++ sep ++ b) := by
  constructor
  · rw [String.data_append]
    simp [hb.ne]
  · rw [String.data_append, String.data_append,
      List.head?_append_of_ne_nil _ (by simp [ha.ne]),
      List.head?_append_of_ne_nil _ ha.ne]
    exact ha.head
  · rw [String.data_append, List.getLast?_append_of_ne_nil _ hb.ne]
    exact hb.last

theorem jsTrim_eq_self {s : String} (h : GoodStr s) : jsTrim s = s := by
  unfold jsTrim
  have d1 : s.data.dropWhile isWs = s.data := by
    cases hd : s.data with
    | nil => rfl
    | cons c cs =>
      have hc : isWs c = false := by
        have := h.head
        rw [hd] at this
        exact this c rfl
      rw [List.dropWhile_cons, hc]
      simp
  rw [d1]
  have d2 : s.data.reverse.dropWhile isWs = s.data.reverse := by
    cases hr : s.data.reverse with
    | nil => rfl
    | cons c cs =>
      have hlast : s.data.getLast? = some c := by
        rw [← List.head?_reverse, hr]
        rfl
      have hc : isWs c = false := h.last c (by rw [hlast]; rfl)
      rw [List.dropWhile_cons, hc]
      simp
  rw [d2, List.reverse_reverse]

theorem joinSep_good : ∀ (parts : List String), parts ≠ [] →
    (∀ p ∈ parts, GoodStr p) → GoodStr (joinSep " " parts)
  | [], h, _ => absurd rfl h
  | [a], _, hp => by
    rw [joinSep]
    exact hp a (by simp)
  | a :: b :: rest, _, hp => by
    rw [joinSep]
    have hj := joinSep_good (b :: rest) (by simp)
      (fun p hpm => hp p (List.mem_cons_of_mem a hpm))
    exact GoodStr.appendSep (hp a (by simp)) hj

theorem jsTrim_join_good {parts : List String} (hne : parts ≠ [])
    (hp : ∀ p ∈ parts, GoodStr p) :
    jsTrim (joinSep " " parts) = joinSep " " parts :=
  jsTrim_eq_self (joinSep_good parts hne hp)

theorem spliceAnd_eq {l : List String} (h : l ≠ []) :
    spliceAnd l = l.dropLast ++ ["and", l.getLastD ""] := by
  obtain h1 | ⟨L, b, rfl⟩ := List.eq_nil_or_concat l
  · exact absurd h1 h
  · unfold spliceAnd
    rw [List.concat_eq_append]
    have hlen : (L ++ [b]).length - 1 = L.length := by simp
    rw [hlen, List.take_left, List.drop_left, List.dropLast_concat,
      List.getLastD_concat]

/-! Whitespace-freeness of the word fragments the converters emit. -/

theorem units_good : ∀ u, 1 ≤ u → u ≤ 9 → GoodStr (lookupW unitsW u) := by
  have hb : ∀ u, u < 10 → 1 ≤ u → goodStrB (lookupW unitsW u) = true := by decide
  intro u h1 h2
  exact goodStr_of_B (hb u (by omega) h1)

theorem teens_good : ∀ u, u ≤ 9 → GoodStr (lookupW teensW u) := by
  have hb : ∀ u, u < 10 → goodStrB (lookupW teensW u) = true := by decide
  intro u h
  exact goodStr_of_B (hb u (by omega))

theorem tens_good : ∀ t, 2 ≤ t → GoodStr (lookupW tensW t) := by
  intro t h2
  by_cases h10 : t < 10
  · have hb : ∀ t, t < 10 → 2 ≤ t → goodStrB (lookupW tensW t) = true := by decide
    exact goodStr_of_B (hb t h10 h2)
  · have : lookupW tensW t = "undefined" := by
      unfold lookupW
      exact List.getD_eq_default _ _ (by simp [tensW]; omega)
    rw [this]
    exact goodStr_of_B (by decide)

theorem convertTwoDigits_good (n : Nat) (h : 1 ≤ n) : GoodStr (convertTwoDigits n) := by
  unfold convertTwoDigits
  rw [if_neg (by omega)]
  by_cases h10 : n < 10
  · rw [if_pos h10]
    exact units_good n h (by omega)
  · rw [if_neg h10]
    by_cases h20 : n < 20
    · rw [if_pos h20]
      exact teens_good (n - 10) (by omega)
    · rw [if_neg h20]
      by_cases hu : n % 10 = 0
      · simp only [hu, if_pos rfl]
        exact tens_good (n / 10) (by omega)
      · rw [if_neg hu]
        exact GoodStr.appendSep (tens_good (n / 10) (by omega))
          (units_good (n % 10) (by omega) (by omega))

theorem mem_ite_singleton {α : Type} {p : α} {c : Prop} [Decidable c] {x : α}
    (h : p ∈ (if c then [x] else [])) : c ∧ p = x := by
  by_cases hc : c
  · rw [if_pos hc] at h
    exact ⟨hc, by simpa using h⟩
  · rw [if_neg hc] at h
    cases h

theorem bucketParts_good (n : Nat) : ∀ p ∈ bucketParts n, GoodStr p := by
  intro p hp
  unfold bucketParts at hp
  simp only [List.mem_append] at hp
  rcases hp with ((((h | h) | h) | h) | h)
  · obtain ⟨hc, rfl⟩ := mem_ite_singleton h
    exact GoodStr.appendRight (convertTwoDigits_good _ hc) (by decide) (by decide)
  · obtain ⟨hc, rfl⟩ := mem_ite_singleton h
    exact GoodStr.appendRight (convertTwoDigits_good _ hc) (by decide) (by decide)
  · obtain ⟨hc, rfl⟩ := mem_ite_singleton h
    exact GoodStr.appendRight (convertTwoDigits_good _ hc) (by decide) (by decide)
  · obtain ⟨hc, rfl⟩ := mem_ite_singleton h
    exact GoodStr.appendRight (units_good _ hc (by omega)) (by decide) (by decide)
  · obtain ⟨hc, rfl⟩ := mem_ite_singleton h
    exact convertTwoDigits_good _ hc

theorem numToWords_small : ∀ m, m < 100 → numToWords m = convertTwoDigits m := by
  decide

theorem bucketParts_length (n : Nat) : (bucketParts n).length =
    (if n / 10000000 > 0 then 1 else 0) +
    (if n % 10000000 / 100000 > 0 then 1 else 0) +
    (if n % 100000 / 1000 > 0 then 1 else 0) +
    (if n % 1000 / 100 > 0 then 1 else 0) +
    (if n % 100 > 0 then 1 else 0) := by
  simp only [bucketParts, List.length_append, apply_ite List.length,
    List.length_singleton, List.length_nil]

theorem numberToWordsIndian_single {n : Nat} {part : String} (hn0 : n ≠ 0)
    (hbp : bucketParts n = [part]) : numberToWordsIndian n = jsTrim part := by
  unfold numberToWordsIndian
  rw [if_neg hn0]
  show jsTrim (joinSep " "
    (if (bucketParts n).length > 1 then spliceAnd (bucketParts n) else bucketParts n)) = _
  rw [hbp]
  rw [if_neg (by simp), joinSep]

/-- C10 amended: the two implementations agree exactly on the inputs
where fewer than two magnitude buckets are non-zero (and the input is
below 10^9, where the bucket converter's two-digit table lookups stay
in range); with two or more non-zero buckets they differ, because only
the bucket-based one inserts `"and"` (counterexample at 100005). -/
theorem totalsFor_eq (t : EntryType) (l : List Entry) :
    totalsFor t l = (((l.filter (fun e => e.type = t)).map Entry.amount).sum,
      (l.filter (fun e => e.type = t)).length) := by
  unfold totalsFor
  suffices h : ∀ (m : List Entry) (a : ℚ) (k : Nat),
      m.foldl (fun acc e => (acc.1 + e.amount, acc.2 + 1)) (a, k) =
        (a + (m.map Entry.amount).sum, k + m.length) by
    simpa using h (l.filter (fun e => e.type = t)) 0 0
  intro m
  induction m with
  | nil =>
    intro a k
    simp
  | cons e m ih =>
    intro a k
    rw [List.foldl_cons, ih]
    simp only [List.map_cons, List.sum_cons, List.length_cons, Prod.mk.injEq]
    constructor
    · ring
    · omega

/-- C6: `summaryMetrics` satisfies `netBalance = incomeSum -
expenseSum` and `totalTransactions = incomeCount + expenseCount`, and
never divides by zero: `avgIncome = incomeSum / incomeCount` when
`incomeCount > 0` and `0` otherwise, `avgExpense` likewise; on an empty
entry set `avgIncome = avgExpense = netBalance = 0`. -/
theorem lexLt_irrefl : ∀ (a : List Nat), lexLt a a = false := by
  intro a
  induction a with
  | nil => rfl
  | cons x xs ih =>
    unfold lexLt
    rw [if_neg (by omega), if_neg (by omega)]
    exact ih

theorem lexLt_trans : ∀ (a b c : List Nat),
    lexLt a b = true → lexLt b c = true → lexLt a c = true := by
  intro a
  induction a with
  | nil =>
    intro b c h1 h2
    cases b with
    | nil => cases h1
    | cons y ys =>
      cases c with
      | nil => cases h2
      | cons z zs => rfl
  | cons x xs ih =>
    intro b c h1 h2
    cases b with
    | nil => cases h1
    | cons y ys =>
      cases c with
      | nil => cases h2
      | cons z zs =>
        unfold lexLt at h1 h2 ⊢
        by_cases hxy : x < y
        · rw [if_pos hxy] at h1
          by_cases hyz : y < z
          · rw [if_pos (by omega : x < z)]
          · rw [if_neg hyz] at h2
            by_cases hzy : z < y
            · rw [if_pos hzy] at h2
              cases h2
            · have : y = z := by omega
              subst this
              rw [if_pos hxy]
        · rw [if_neg hxy] at h1
          by_cases hyx : y < x
          · rw [if_pos hyx] at h1
            cases h1
          · have hxy2 : x = y := by omega
            subst hxy2
            rw [if_neg (lt_irrefl x)] at h1
            by_cases hyz : x < z
            · rw [if_pos hyz]
            · rw [if_neg hyz] at h2 ⊢
              by_cases hzy : z < x
              · rw [if_pos hzy] at h2
                cases h2
              · rw [if_neg hzy] at h2 ⊢
                exact ih ys zs h1 h2

theorem lexLt_connex : ∀ (a b : List Nat),
    lexLt a b = false → lexLt b a = false → a = b := by
  intro a
  induction a with
  | nil =>
    intro b h1 _
    cases b with
    | nil => rfl
    | cons y ys => cases h1
  | cons x xs ih =>
    intro b h1 h2
    cases b with
    | nil => cases h2
    | cons y ys =>
      unfold lexLt at h1 h2
      by_cases hxy : x < y
      · rw [if_pos hxy] at h1
        cases h1
      · by_cases hyx : y < x
        · rw [if_pos hyx] at h2
          cases h2
        · have hxy2 : x = y := by omega
          subst hxy2
          rw [if_neg (by omega), if_neg (by omega)] at h1 h2
          rw [ih ys h1 h2]

theorem localeCompare_self (s : String) : localeCompare s s = 0 := by
  unfold localeCompare
  simp [lexLt_irrefl]

theorem localeCompare_le_iff (a b : String) : localeCompare a b ≤ 0 ↔
    (lexLt (collP a) (collP b) = true ∨ (collP a = collP b ∧
      (lexLt (collT a) (collT b) = true ∨ collT a = collT b))) := by
  unfold localeCompare
  split_ifs with h1 h2 h3 h4
  · simp [h1]
  · constructor
    · intro h
      omega
    · rintro (h | ⟨hp, _⟩)
      · exact absurd h (by simp [h1])
      · rw [hp, lexLt_irrefl] at h2
        cases h2
  · have hp := lexLt_connex _ _ (by simpa using h1) (by simpa using h2)
    simp [h1, hp, h3]
  · constructor
    · intro h
      omega
    · rintro (h | ⟨hp, ht | ht⟩)
      · exact absurd h (by simp [h1])
      · exact absurd ht (by simp [h3])
      · rw [ht, lexLt_irrefl] at h4
        cases h4
  · have hp := lexLt_connex _ _ (by simpa using h1) (by simpa using h2)
    have ht := lexLt_connex _ _ (by simpa using h3) (by simpa using h4)
    simp [hp, ht]

theorem localeCompare_le_trans {a b c : String} (h1 : localeCompare a b ≤ 0)
    (h2 : localeCompare b c ≤ 0) : localeCompare a c ≤ 0 := by
  rw [localeCompare_le_iff] at h1 h2 ⊢
  rcases h1 with h1 | ⟨hp1, ht1⟩
  · rcases h2 with h2 | ⟨hp2, _⟩
    · exact Or.inl (lexLt_trans _ _ _ h1 h2)
    · rw [hp2] at h1
      exact Or.inl h1
  · rcases h2 with h2 | ⟨hp2, ht2⟩
    · rw [hp1]
      exact Or.inl h2
    · refine Or.inr ⟨hp1.trans hp2, ?_⟩
      rcases ht1 with ht1 | ht1
      · rcases ht2 with ht2 | ht2
        · exact Or.inl (lexLt_trans _ _ _ ht1 ht2)
        · rw [ht2] at ht1
          exact Or.inl ht1
      · rcases ht2 with ht2 | ht2
        · rw [ht1]
          exact Or.inl ht2
        · exact Or.inr (ht1.trans ht2)

theorem localeCompare_le_total (a b : String) :
    localeCompare a b ≤ 0 ∨ localeCompare b a ≤ 0 := by
  unfold localeCompare
  by_cases h1 : lexLt (collP a) (collP b) = true
  · left
    simp [h1]
  · by_cases h2 : lexLt (collP b) (collP a) = true
    · right
      simp [h2]
    · by_cases h3 : lexLt (collT a) (collT b) = true
      · left
        simp [h1, h2, h3]
      · by_cases h4 : lexLt (collT b) (collT a) = true
        · right
          simp [h1, h2, h4]
        · left
          simp [h1, h2, h3, h4]

theorem entryCmp_amount (dir : SortDir) (a b : Entry) :
    entryCmp .amount dir a b =
      match dir with
      | .asc => a.amount - b.amount
      | .desc => b.amount - a.amount := by
  unfold entryCmp
  rw [if_neg (by decide), if_pos rfl]

theorem entryCmp_string (k : SortKey) (hk : ¬(k = .date ∨ k = .monthYear))
    (hk2 : ¬k = .amount) (dir : SortDir) (a b : Entry) :
    entryCmp k dir a b =
      match dir with
      | .asc => ((localeCompare (fieldStr k a) (fieldStr k b) : ℤ) : ℚ)
      | .desc => ((localeCompare (fieldStr k b) (fieldStr k a) : ℤ) : ℚ) := by
  unfold entryCmp
  rw [if_neg hk, if_neg hk2]

theorem sortLe_trans (k : SortKey) (dir : SortDir) (hk : ¬(k = .date ∨ k = .monthYear)) :
    ∀ a b c, sortLe k dir a b = true → sortLe k dir b c = true →
      sortLe k dir a c = true := by
  intro a b c h1 h2
  unfold sortLe at h1 h2 ⊢
  by_cases hk2 : k = .amount
  · subst hk2
    rw [entryCmp_amount] at h1 h2 ⊢
    cases dir <;> simp only [decide_eq_true_iff] at h1 h2 ⊢ <;> linarith
  · rw [entryCmp_string k hk hk2] at h1 h2 ⊢
    cases dir <;> simp only [decide_eq_true_iff] at h1 h2 ⊢
    · have h1' : localeCompare (fieldStr k a) (fieldStr k b) ≤ 0 := by exact_mod_cast h1
      have h2' : localeCompare (fieldStr k b) (fieldStr k c) ≤ 0 := by exact_mod_cast h2
      exact_mod_cast localeCompare_le_trans h1' h2'
    · have h1' : localeCompare (fieldStr k b) (fieldStr k a) ≤ 0 := by exact_mod_cast h1
      have h2' : localeCompare (fieldStr k c) (fieldStr k b) ≤ 0 := by exact_mod_cast h2
      exact_mod_cast localeCompare_le_trans h2' h1'

theorem sortLe_total (k : SortKey) (dir : SortDir) (hk : ¬(k = .date ∨ k = .monthYear)) :
    ∀ a b, (sortLe k dir a b || sortLe k dir b a) = true := by
  intro a b
  unfold sortLe
  by_cases hk2 : k = .amount
  · subst hk2
    rw [entryCmp_amount, entryCmp_amount]
    cases dir <;> simp only [Bool.or_eq_true, decide_eq_true_iff] <;>
      rcases le_total a.amount b.amount with h | h
    · exact Or.inl (by linarith)
    · exact Or.inr (by linarith)
    · exact Or.inr (by linarith)
    · exact Or.inl (by linarith)
  · rw [entryCmp_string k hk hk2, entryCmp_string k hk hk2]
    cases dir <;> simp only [Bool.or_eq_true, decide_eq_true_iff]
    · rcases localeCompare_le_total (fieldStr k a) (fieldStr k b) with h | h
      · exact Or.inl (by exact_mod_cast h)
      · exact Or.inr (by exact_mod_cast h)
    · rcases localeCompare_le_total (fieldStr k b) (fieldStr k a) with h | h
      · exact Or.inl (by exact_mod_cast h)
      · exact Or.inr (by exact_mod_cast h)

theorem sortLe_of_keyEq (k : SortKey) (dir : SortDir)
    (hk : ¬(k = .date ∨ k = .monthYear)) {a b : Entry} (h : sortKeyEq k a b) :
    sortLe k dir a b = true := by
  unfold sortKeyEq at h
  rw [if_neg hk] at h
  unfold sortLe
  by_cases hk2 : k = .amount
  · subst hk2
    rw [if_pos rfl] at h
    rw [entryCmp_amount]
    cases dir <;> simp only [decide_eq_true_iff] <;> rw [h] <;> simp
  · rw [if_neg hk2] at h
    rw [entryCmp_string k hk hk2]
    cases dir <;> simp only [decide_eq_true_iff] <;> rw [h] <;>
      simp [localeCompare_self]

theorem escapeQuotes_count (s : String) :
    (escapeQuotes s).data.count '"' = 2 * s.data.count '"' := by
  show (s.data.flatMap fun c => if c = '"' then ['"', '"'] else [c]).count '"' =
    2 * s.data.count '"'
  induction s.data with
  | nil => rfl
  | cons c cs ih =>
    rw [List.flatMap_cons, List.count_append, ih, List.count_cons]
    by_cases h : c = '"'
    · subst h
      simp
      omega
    · rw [if_neg h]
      have h2 : (c == '"') = false := by simpa using h
      simp [List.count_cons, h2]

/-! ## Claims -/

/-- C1: for every non-negative integer amount in which at least two of
the five magnitude buckets (crore, lakh, thousand, hundred, remainder
0-99) are non-zero, `toWords` joins the non-empty bucket renderings in
descending-magnitude order with single spaces and inserts the word
`"and"` exactly once, immediately before the last (lowest-magnitude)
rendered part; in particular `toWords 100000 = "One Lakh"`,
`toWords 100005 = "One Lakh and Five"`, and `toWords 1234567 = "Twelve
Lakh Thirty Four Thousand Five Hundred and Sixty Seven"`.
(`bucketParts n` lists the renderings of the non-zero buckets in
descending-magnitude order, so its length is the number of non-zero
buckets.) -/
theorem C1_and_placement :
    (∀ n : Nat, 2 ≤ (bucketParts n).length →
      numberToWordsIndian n =
        joinSep " " ((bucketParts n).dropLast ++ ["and", (bucketParts n).getLastD ""])) ∧
    numberToWordsIndian 100000 = "One Lakh" ∧
    numberToWordsIndian 100005 = "One Lakh and Five" ∧
    numberToWordsIndian 1234567 =
      "Twelve Lakh Thirty Four Thousand Five Hundred and Sixty Seven" := by
  refine ⟨?_, by decide, by decide, by decide⟩
  intro n h2
  have hne : bucketParts n ≠ [] := by
    intro he
    rw [he] at h2
    simp at h2
  have hn0 : n ≠ 0 := by
    intro h0
    subst h0
    revert h2
    decide
  have hgood : ∀ p ∈ (bucketParts n).dropLast ++ ["and", (bucketParts n).getLastD ""],
      GoodStr p := by
    intro p hp
    rcases List.mem_append.mp hp with h | h
    · exact bucketParts_good n p ((List.dropLast_sublist _).subset h)
    · rcases List.mem_cons.mp h with rfl | h
      · exact goodStr_of_B (by decide)
      · have hpl : p = (bucketParts n).getLastD "" := by simpa using h
        subst hpl
        obtain hnil | ⟨L, b, hLb⟩ := List.eq_nil_or_concat (bucketParts n)
        · exact absurd hnil hne
        · rw [hLb, List.concat_eq_append, List.getLastD_concat]
          apply bucketParts_good n
          rw [hLb]
          simp
  unfold numberToWordsIndian
  rw [if_neg hn0]
  show jsTrim (joinSep " "
    (if (bucketParts n).length > 1 then spliceAnd (bucketParts n) else bucketParts n)) = _
  rw [if_pos (by omega), spliceAnd_eq hne]
  exact jsTrim_join_good (by simp) hgood

/-- C1 witness: the general part of `C1_and_placement` applied at
`n = 100005`. -/
theorem C1_and_placement_witness :
    2 ≤ (bucketParts 100005).length ∧
    numberToWordsIndian 100005 =
      joinSep " " ((bucketParts 100005).dropLast ++
        ["and", (bucketParts 100005).getLastD ""]) :=
  ⟨by decide, C1_and_placement.1 100005 (by decide)⟩

/-- C10 counterexample: the two `numberToWordsIndian` implementations
disagree at 100005 — the bucket-based one inserts `"and"`
(`"One Lakh and Five"`), the recursive one never does
(`"One Lakh Five"`). -/
theorem C10_counterexample :
    numberToWordsIndian 100005 = "One Lakh and Five" ∧
    numberToWordsIndianRec 100005 = "One Lakh Five" ∧
    numberToWordsIndian 100005 ≠ numberToWordsIndianRec 100005 := by
  refine ⟨by decide, by decide, by decide⟩

theorem C10_amended (n : Nat) (hsize : n < 1000000000)
    (h1 : (bucketParts n).length ≤ 1) :
    numberToWordsIndian n = numberToWordsIndianRec n := by
  have hlen := bucketParts_length n
  by_cases hc : n / 10000000 > 0
  · -- crore bucket only
    have hL : ¬ n % 10000000 / 100000 > 0 := by
      intro h
      rw [hlen, if_pos hc, if_pos h] at h1
      omega
    have ht : ¬ n % 100000 / 1000 > 0 := by
      intro h
      rw [hlen, if_pos hc, if_pos h] at h1
      omega
    have hh : ¬ n % 1000 / 100 > 0 := by
      intro h
      rw [hlen, if_pos hc, if_pos h] at h1
      omega
    have hr : ¬ n % 100 > 0 := by
      intro h
      rw [hlen, if_pos hc, if_pos h] at h1
      omega
    have hmod : n % 10000000 = 0 := by omega
    have hn0 : n ≠ 0 := by omega
    have hbp : bucketParts n = [convertTwoDigits (n / 10000000) ++ " Crore"] := by
      simp only [bucketParts, if_pos hc, if_neg hL, if_neg ht, if_neg hh, if_neg hr]
      simp
    rw [numberToWordsIndian_single hn0 hbp]
    unfold numberToWordsIndianRec
    rw [if_neg hn0, numToWords_eq]
    rw [if_neg hn0, if_neg (by omega : ¬ n < 10), if_neg (by omega : ¬ n < 20),
      if_neg (by omega : ¬ n < 100), if_neg (by omega : ¬ n < 1000),
      if_neg (by omega : ¬ n < 100000), if_neg (by omega : ¬ n < 10000000),
      if_neg (by omega : ¬ n % 10000000 ≠ 0), String.append_empty,
      numToWords_small (n / 10000000) (by omega)]
  · by_cases hL : n % 10000000 / 100000 > 0
    · -- lakh bucket only
      have ht : ¬ n % 100000 / 1000 > 0 := by
        intro h
        rw [hlen, if_neg hc, if_pos hL, if_pos h] at h1
        omega
      have hh : ¬ n % 1000 / 100 > 0 := by
        intro h
        rw [hlen, if_neg hc, if_pos hL, if_pos h] at h1
        omega
      have hr : ¬ n % 100 > 0 := by
        intro h
        rw [hlen, if_neg hc, if_pos hL, if_pos h] at h1
        omega
      have hmod : n % 100000 = 0 := by omega
      have hn0 : n ≠ 0 := by omega
      have hdiv : n % 10000000 / 100000 = n / 100000 := by omega
      have hbp : bucketParts n = [convertTwoDigits (n % 10000000 / 100000) ++ " Lakh"] := by
        simp only [bucketParts, if_neg hc, if_pos hL, if_neg ht, if_neg hh, if_neg hr]
        simp
      rw [numberToWordsIndian_single hn0 hbp]
      unfold numberToWordsIndianRec
      rw [if_neg hn0, numToWords_eq]
      rw [if_neg hn0, if_neg (by omega : ¬ n < 10), if_neg (by omega : ¬ n < 20),
        if_neg (by omega : ¬ n < 100), if_neg (by omega : ¬ n < 1000),
        if_neg (by omega : ¬ n < 100000), if_pos (by omega : n < 10000000),
        if_neg (by omega : ¬ n % 100000 ≠ 0), String.append_empty, ← hdiv,
        numToWords_small (n % 10000000 / 100000) (by omega)]
    · by_cases ht : n % 100000 / 1000 > 0
      · -- thousand bucket only
        have hh : ¬ n % 1000 / 100 > 0 := by
          intro h
          rw [hlen, if_neg hc, if_neg hL, if_pos ht, if_pos h] at h1
          omega
        have hr : ¬ n % 100 > 0 := by
          intro h
          rw [hlen, if_neg hc, if_neg hL, if_pos ht, if_pos h] at h1
          omega
        have hmod : n % 1000 = 0 := by omega
        have hn0 : n ≠ 0 := by omega
        have hdiv : n % 100000 / 1000 = n / 1000 := by omega
        have hbp : bucketParts n =
            [convertTwoDigits (n % 100000 / 1000) ++ " Thousand"] := by
          simp only [bucketParts, if_neg hc, if_neg hL, if_pos ht, if_neg hh, if_neg hr]
          simp
        rw [numberToWordsIndian_single hn0 hbp]
        unfold numberToWordsIndianRec
        rw [if_neg hn0, numToWords_eq]
        rw [if_neg hn0, if_neg (by omega : ¬ n < 10), if_neg (by omega : ¬ n < 20),
          if_neg (by omega : ¬ n < 100), if_neg (by omega : ¬ n < 1000),
          if_pos (by omega : n < 100000),
          if_neg (by omega : ¬ n % 1000 ≠ 0), String.append_empty, ← hdiv,
          numToWords_small (n % 100000 / 1000) (by omega)]
      · by_cases hh : n % 1000 / 100 > 0
        · -- hundred bucket only
          have hr : ¬ n % 100 > 0 := by
            intro h
            rw [hlen, if_neg hc, if_neg hL, if_neg ht, if_pos hh, if_pos h] at h1
            omega
          have hmod : n % 100 = 0 := by omega
          have hn0 : n ≠ 0 := by omega
          have hdiv : n % 1000 / 100 = n / 100 := by omega
          have hbp : bucketParts n = [lookupW unitsW (n % 1000 / 100) ++ " Hundred"] := by
            simp only [bucketParts, if_neg hc, if_neg hL, if_neg ht, if_pos hh, if_neg hr]
            simp
          rw [numberToWordsIndian_single hn0 hbp]
          unfold numberToWordsIndianRec
          rw [if_neg hn0, numToWords_eq]
          rw [if_neg hn0, if_neg (by omega : ¬ n < 10), if_neg (by omega : ¬ n < 20),
            if_neg (by omega : ¬ n < 100), if_pos (by omega : n < 1000),
            if_neg (by omega : ¬ n % 100 ≠ 0), String.append_empty, ← hdiv]
        · by_cases hr : n % 100 > 0
          · -- remainder bucket only
            have hn0 : n ≠ 0 := by omega
            have hsm : n < 100 := by omega
            have hbp : bucketParts n = [convertTwoDigits (n % 100)] := by
              simp only [bucketParts, if_neg hc, if_neg hL, if_neg ht, if_neg hh, if_pos hr]
              simp
            rw [numberToWordsIndian_single hn0 hbp]
            unfold numberToWordsIndianRec
            rw [if_neg hn0, numToWords_small n hsm]
            have : n % 100 = n := by omega
            rw [this]
          · -- all buckets zero: n = 0
            have hn0 : n = 0 := by omega
            subst hn0
            decide

/-- C10 amended witness: agreement at the single-bucket input 500000. -/
theorem C10_amended_witness :
    500000 < 1000000000 ∧ (bucketParts 500000).length ≤ 1 ∧
    numberToWordsIndian 500000 = numberToWordsIndianRec 500000 :=
  ⟨by decide, by decide, C10_amended 500000 (by decide) (by decide)⟩

/-- C2 counterexample: neither implementation satisfies
`toWords x = toWords ⌊x⌋` on fractional input.  The bucket-based one
does not truncate: at 100.5 it returns `"One Hundred and"` (the
fractional remainder 0.5 hits an undefined array slot, rendered as the
empty string by `join`, yet still triggers the `"and"` insertion),
while `toWords 100 = "One Hundred"`; at 150.5 its output even contains
`"undefined"`.  The recursive one floors, but returns `""` instead of
`"Zero"` for `x = 0.5`. -/
theorem C2_counterexample :
    numberToWordsIndianQ (201 / 2) = "One Hundred and" ∧
    numberToWordsIndianQ (((201 / 2 : ℚ).floor : ℤ) : ℚ) = "One Hundred" ∧
    numberToWordsIndianQ (201 / 2) ≠
      numberToWordsIndianQ (((201 / 2 : ℚ).floor : ℤ) : ℚ) ∧
    jsIncludes (numberToWordsIndianQ (301 / 2)) "undefined" = true ∧
    numberToWordsIndianRecQ (1 / 2) ≠
      numberToWordsIndianRecQ (((1 / 2 : ℚ).floor : ℤ) : ℚ) :=
  ⟨by decide, by decide, by decide, by decide, by decide⟩

/-- C2 amended: the recursive implementation truncates whenever the
floor is at least 1 (`toWords x = toWords ⌊x⌋`), and its output for
100.5 is the well-formed `"One Hundred"`; for `0 < x < 1` it returns
`""` rather than `"Zero"`.  The bucket-based implementation does not
truncate: `toWords 100.5 = "One Hundred and"` and
`toWords 150.5 = "One Hundred and Fifty undefined"`. -/
theorem C2_amended :
    (∀ x : ℚ, 1 ≤ x.floor →
      numberToWordsIndianRecQ x = numberToWordsIndianRecQ ((x.floor : ℤ) : ℚ)) ∧
    numberToWordsIndianRecQ (201 / 2) = "One Hundred" ∧
    numberToWordsIndianRecQ (1 / 2) = "" ∧
    numberToWordsIndianQ (201 / 2) = "One Hundred and" ∧
    numberToWordsIndianQ (301 / 2) = "One Hundred and Fifty undefined" := by
  refine ⟨?_, by decide, by decide, by decide, by decide⟩
  intro x hx
  unfold numberToWordsIndianRecQ
  have hx0 : ¬ x = 0 := by
    intro h
    subst h
    revert hx
    decide
  have hcast : ¬ ((x.floor : ℤ) : ℚ) = 0 := by
    intro h
    have h0 : x.floor = (0 : ℤ) := by exact_mod_cast h
    omega
  rw [if_neg hx0, if_neg hcast]
  exact rfl

/-- C2 amended witness: the truncation part applied at `x = 100.5`. -/
theorem C2_amended_witness :
    1 ≤ (201 / 2 : ℚ).floor ∧
    numberToWordsIndianRecQ (201 / 2) =
      numberToWordsIndianRecQ (((201 / 2 : ℚ).floor : ℤ) : ℚ) :=
  ⟨by decide, C2_amended.1 (201 / 2) (by decide)⟩

theorem C6_summaryMetrics (l : List Entry) :
    (summaryMetrics l).netBalance =
      ((l.filter (fun e => e.type = .income)).map Entry.amount).sum -
      ((l.filter (fun e => e.type = .expense)).map Entry.amount).sum ∧
    (summaryMetrics l).totalTransactions =
      (l.filter (fun e => e.type = .income)).length +
      (l.filter (fun e => e.type = .expense)).length ∧
    (0 < (l.filter (fun e => e.type = .income)).length →
      (summaryMetrics l).avgIncome =
        ((l.filter (fun e => e.type = .income)).map Entry.amount).sum /
          ((l.filter (fun e => e.type = .income)).length : ℚ)) ∧
    ((l.filter (fun e => e.type = .income)).length = 0 →
      (summaryMetrics l).avgIncome = 0) ∧
    (0 < (l.filter (fun e => e.type = .expense)).length →
      (summaryMetrics l).avgExpense =
        ((l.filter (fun e => e.type = .expense)).map Entry.amount).sum /
          ((l.filter (fun e => e.type = .expense)).length : ℚ)) ∧
    ((l.filter (fun e => e.type = .expense)).length = 0 →
      (summaryMetrics l).avgExpense = 0) ∧
    ((summaryMetrics ([] : List Entry)).netBalance = 0 ∧
     (summaryMetrics ([] : List Entry)).avgIncome = 0 ∧
     (summaryMetrics ([] : List Entry)).avgExpense = 0 ∧
     (summaryMetrics ([] : List Entry)).totalTransactions = 0) := by
  unfold summaryMetrics
  rw [totalsFor_eq, totalsFor_eq]
  refine ⟨rfl, rfl, ?_, ?_, ?_, ?_, by decide⟩
  · intro h
    simp only []
    rw [if_pos h]
  · intro h
    simp only []
    rw [if_neg (by omega)]
  · intro h
    simp only []
    rw [if_pos h]
  · intro h
    simp only []
    rw [if_neg (by omega)]

/-- C6 witness: the theorem applied to a one-income-entry list, where
both guarded average equations are exercised. -/
theorem C6_summaryMetrics_witness :
    0 < ([c6Entry].filter (fun e => e.type = .income)).length ∧
    (summaryMetrics [c6Entry]).avgIncome =
      (([c6Entry].filter (fun e => e.type = .income)).map Entry.amount).sum /
        (([c6Entry].filter (fun e => e.type = .income)).length : ℚ) ∧
    ([c6Entry].filter (fun e => e.type = .expense)).length = 0 ∧
    (summaryMetrics [c6Entry]).avgExpense = 0 :=
  ⟨by decide, (C6_summaryMetrics [c6Entry]).2.2.1 (by decide), by decide,
    (C6_summaryMetrics [c6Entry]).2.2.2.2.2.1 (by decide)⟩

/-- C9: every ingested `renewDateReminder` lies in `{0, 5, 10, 15}`;
a stored value outside that set (including a non-numeric one, whose
`Number(...)` is `NaN`) is normalized to 0, never rejected. -/
theorem C9_reminder_normalized :
    (∀ raw : Option ℚ, normalizeReminder raw ∈ ([0, 5, 10, 15] : List Nat)) ∧
    (∀ x : ℚ, x ∉ ([0, 5, 10, 15] : List ℚ) → normalizeReminder (some x) = 0) ∧
    normalizeReminder none = 0 := by
  refine ⟨?_, ?_, rfl⟩
  · intro raw
    match raw with
    | none => decide
    | some x =>
      show (if x ∈ ([0, 5, 10, 15] : List ℚ) then x.num.toNat else 0) ∈
        ([0, 5, 10, 15] : List Nat)
      by_cases h : x ∈ ([0, 5, 10, 15] : List ℚ)
      · rw [if_pos h]
        fin_cases h <;> decide
      · rw [if_neg h]
        decide
  · intro x hx
    show (if x ∈ ([0, 5, 10, 15] : List ℚ) then x.num.toNat else 0) = 0
    rw [if_neg hx]

/-- C9 witness: a stored value of 7 is normalized to 0. -/
theorem C9_reminder_normalized_witness :
    (7 : ℚ) ∉ ([0, 5, 10, 15] : List ℚ) ∧ normalizeReminder (some 7) = 0 :=
  ⟨by decide, C9_reminder_normalized.2.1 7 (by decide)⟩

/-- C8: the Settings filter is idempotent —
`filter (filter E F) F = filter E F` — and it keeps exactly the entries
satisfying every specified predicate (logical AND; an unset predicate
always passes, being `true` by its guard). -/
theorem C8_filter_idempotent (term : String) (cfg : FilterConfig) (l : List Entry) :
    filterEntries term cfg (filterEntries term cfg l) = filterEntries term cfg l ∧
    (∀ e, e ∈ filterEntries term cfg l ↔ e ∈ l ∧
      (matchesSearch term e ∧ matchesName cfg e ∧ matchesContact cfg e ∧
       matchesType cfg e ∧ matchesCategory cfg e ∧ matchesAmount cfg e ∧
       matchesDate cfg e ∧ matchesProperty cfg e)) := by
  constructor
  · unfold filterEntries
    rw [List.filter_filter]
    simp
  · intro e
    unfold filterEntries
    rw [List.mem_filter]
    unfold settingsPred
    simp [and_assoc]

/-- C4 counterexample: the claimed comparison for non-date, non-amount
keys is case-sensitive lexicographic string comparison, but the code
uses `localeCompare` (default-locale collation): ascending sort by
`name` places `"a"` before `"B"`, even though `"B" < "a"` in
case-sensitive lexicographic (code point) order, so the output is not
sorted by the claimed comparison. -/
theorem C4_counterexample :
    sortEntries .name .asc [entryUpperB, entryLowerA] = [entryLowerA, entryUpperB] ∧
    lexLt (entryUpperB.name.data.map Char.toNat)
      (entryLowerA.name.data.map Char.toNat) = true ∧
    sortEntries .name .asc [entryUpperB, entryLowerA] ≠ [entryUpperB, entryLowerA] := by
  have hle : sortLe .name .asc entryUpperB entryLowerA = false := by decide
  have hpair : sortEntries .name .asc [entryUpperB, entryLowerA] =
      [entryLowerA, entryUpperB] := by
    unfold sortEntries
    rw [mergeSort_pair, hle]
    simp
  refine ⟨hpair, by decide, ?_⟩
  rw [hpair]
  decide

/-- C4 amended: `sort` is stable — for entries with equal sort key
(equal date instant for the date-valued keys, which presumes parsable
dates; equal number for `amount`; equal string form otherwise), the
relative input order is preserved.  Date-valued keys compare by
instant and `amount` compares numerically; every other key compares by
the default-locale `localeCompare` (case-insensitive primary order with
lower case before upper case on ties), not by case-sensitive
lexicographic comparison. -/
theorem C4_sort_stable (k : SortKey) (dir : SortDir) (l : List Entry) (p : Entry → Bool)
    (hdate : (k = .date ∨ k = .monthYear) → ∀ e ∈ l, (jsDateMs e.date).isSome)
    (hp : ∀ x y, p x = true → p y = true → sortKeyEq k x y) :
    (sortEntries k dir l).filter p = l.filter p ∧
    (∀ a b ta tb, jsDateMs a.date = some ta → jsDateMs b.date = some tb →
      sortLe .date .asc a b = decide (ta ≤ tb)) ∧
    (∀ a b : Entry, sortLe .amount .asc a b = decide (a.amount ≤ b.amount)) ∧
    (∀ a b : Entry,
      sortLe .name .asc a b = decide (localeCompare a.name b.name ≤ 0)) := by
  refine ⟨?_, ?_, ?_, ?_⟩
  · unfold sortEntries
    by_cases hk : k = .date ∨ k = .monthYear
    · -- date-valued keys: attach the parsed instants and sort by them
      have hall := hdate hk
      set msD : Entry → ℤ := fun e => (jsDateMs e.date).getD 0 with hmsD
      set f : Entry → Entry × ℤ := fun e => (e, msD e) with hfdef
      set le' : Entry × ℤ → Entry × ℤ → Bool := fun x y =>
        match dir with
        | .asc => decide (x.2 ≤ y.2)
        | .desc => decide (y.2 ≤ x.2) with hledef
      have htrans' : ∀ x y z, le' x y = true → le' y z = true → le' x z = true := by
        intro x y z h1 h2
        cases dir <;> simp only [hledef, decide_eq_true_iff] at h1 h2 ⊢ <;> omega
      have htotal' : ∀ x y, (le' x y || le' y x) = true := by
        intro x y
        cases dir <;> simp only [hledef, Bool.or_eq_true, decide_eq_true_iff] <;> omega
      have hcomm : ∀ a ∈ l, ∀ b ∈ l, sortLe k dir a b = le' (f a) (f b) := by
        intro a ha b hb
        obtain ⟨ta, hta⟩ := Option.isSome_iff_exists.mp (hall a ha)
        obtain ⟨tb, htb⟩ := Option.isSome_iff_exists.mp (hall b hb)
        unfold sortLe entryCmp
        rw [if_pos hk]
        have hga : msD a = ta := by simp [hmsD, hta]
        have hgb : msD b = tb := by simp [hmsD, htb]
        cases dir <;>
          simp only [hta, htb, hledef, hfdef, hga, hgb] <;>
          rw [decide_eq_decide, sub_nonpos] <;>
          exact Int.cast_le
      have hmap : (l.mergeSort (sortLe k dir)).map f = (l.map f).mergeSort le' :=
        List.map_mergeSort hcomm
      set p' : Entry × ℤ → Bool := fun x => p x.1 && decide (x.2 = msD x.1) with hpdef
      have hp' : ∀ x y, p' x = true → p' y = true → le' x y = true := by
        intro x y hx hy
        simp only [hpdef, Bool.and_eq_true, decide_eq_true_iff] at hx hy
        have hkey := hp x.1 y.1 hx.1 hy.1
        unfold sortKeyEq at hkey
        rw [if_pos hk] at hkey
        have hms : msD x.1 = msD y.1 := by rw [hmsD]; simp only [hkey]
        have hxy : x.2 = y.2 := by rw [hx.2, hy.2, hms]
        cases dir <;> simp [hledef, hxy]
      have hstable := mergeSort_filter_stable le' htrans' htotal' p' hp' (l.map f)
      have hfp : ∀ m : List Entry, (m.map f).filter p' = (m.filter p).map f := by
        intro m
        rw [List.filter_map]
        have hcomp : p' ∘ f = p := by
          funext e
          simp [hpdef, hfdef]
        rw [hcomp]
      have hinj : Function.Injective f := by
        intro x y hxy
        simpa [hfdef] using congrArg Prod.fst hxy
      apply List.map_injective_iff.mpr hinj
      rw [← hfp (l.mergeSort (sortLe k dir)), hmap, hstable, hfp l]
    · exact mergeSort_filter_stable (sortLe k dir) (sortLe_trans k dir hk)
        (sortLe_total k dir hk) p
        (fun x y hx hy => sortLe_of_keyEq k dir hk (hp x y hx hy)) l
  · intro a b ta tb hta htb
    unfold sortLe entryCmp
    rw [if_pos (Or.inl rfl)]
    simp only [hta, htb]
    rw [decide_eq_decide, sub_nonpos]
    exact Int.cast_le
  · intro a b
    unfold sortLe
    rw [entryCmp_amount]
    show decide (a.amount - b.amount ≤ 0) = decide (a.amount ≤ b.amount)
    rw [decide_eq_decide, sub_nonpos]
  · intro a b
    unfold sortLe
    rw [entryCmp_string .name (by decide) (by decide)]
    show decide (((localeCompare a.name b.name : ℤ) : ℚ) ≤ 0) =
      decide (localeCompare a.name b.name ≤ 0)
    rw [decide_eq_decide]
    exact Int.cast_nonpos

/-- C4 witness: stability applied to two distinct entries with the same
name, sorted ascending by name: filtering the sorted output by that
name returns them in input order. -/
theorem C4_sort_stable_witness :
    (sortEntries .name .asc [twinEntry1, twinEntry2]).filter
        (fun e => e.name == "Ann") =
      [twinEntry1, twinEntry2].filter (fun e => e.name == "Ann") :=
  (C4_sort_stable .name .asc [twinEntry1, twinEntry2] (fun e => e.name == "Ann")
    (fun h => absurd h (by decide))
    (fun x y hx hy => by
      have hx' : x.name = "Ann" := by simpa using hx
      have hy' : y.name = "Ann" := by simpa using hy
      show sortKeyEq .name x y
      unfold sortKeyEq
      rw [if_neg (by decide), if_neg (by decide)]
      show x.name = y.name
      rw [hx', hy'])).1

/-- C7 counterexample: an entry whose `date` does not parse is dropped
by the Settings filter even when no date bound is specified, so it also
vanishes from the aggregate totals — a computation that is not
date-dependent — and nothing is reported to the caller. -/
theorem C7_counterexample :
    filterEntries "" emptyFilter [badDateEntry] = [] ∧
    totalsFor .income (filterEntries "" emptyFilter [badDateEntry]) = (0, 0) ∧
    totalsFor .income [badDateEntry] = (100, 1) := by
  refine ⟨by decide, by decide, by decide⟩

/-- C7 amended: an entry with an unparsable `date` fails the Settings
filter predicate regardless of the filter specification (the date-range
check compares against `NaN`), and is therefore excluded from the
filtered view and every computation derived from it — including the
non-date-dependent ones — with no data-quality signal returned to the
caller. -/
theorem C7_amended (term : String) (cfg : FilterConfig) (e : Entry)
    (h : jsDateMs e.date = none) :
    settingsPred term cfg e = false ∧ ∀ l : List Entry, e ∉ filterEntries term cfg l := by
  have hd : matchesDate cfg e = false := by
    unfold matchesDate
    rw [h]
  have hp : settingsPred term cfg e = false := by
    unfold settingsPred
    rw [hd]
    simp
  refine ⟨hp, fun l hmem => ?_⟩
  have := (List.mem_filter.mp hmem).2
  rw [hp] at this
  cases this

/-- C3: `reminders(entries, today)` contains exactly the entries with
`renewDateReminder > 0` and a parsable `renewDate` whose
`daysUntilRenew = ceil((renewDate - today) / 1 day)` satisfies
`daysUntilRenew ≤ renewDateReminder` or `daysUntilRenew ≤ 0`, with
status Due when `daysUntilRenew = 0`, PastDue when negative, and
Approaching when `0 < daysUntilRenew ≤ renewDateReminder`; entries with
`daysUntilRenew > renewDateReminder` are excluded, and the result is
sorted ascending by `renewDate` (instant). -/
theorem C3_reminders (entries : List Entry) (today : String) (t : ℤ)
    (ht : jsDateMs today = some t) :
    (∀ (e : Entry) (s : RStatus), (e, s) ∈ reminderEntries entries today ↔
      (e ∈ entries ∧ 0 < e.renewDateReminder ∧
        ∃ d, daysUntil e.renewDate today = some d ∧
          (d ≤ 0 ∨ d ≤ (e.renewDateReminder : ℤ)) ∧
          s = (if d = 0 then RStatus.due else if d < 0 then RStatus.pastDue
               else RStatus.approaching))) ∧
    (reminderEntries entries today).Pairwise
      (fun a b => (jsDateMs a.1.renewDate).getD 0 ≤ (jsDateMs b.1.renewDate).getD 0) := by
  have hDU : ∀ dt : String, (daysUntil dt today).isSome ↔ (jsDateMs dt).isSome := by
    intro dt
    unfold daysUntil
    rw [ht]
    cases jsDateMs dt <;> simp
  have hstep : ∀ (a : Entry) (d : ℤ), daysUntil a.renewDate today = some d →
      reminderStep today a =
        (if d = 0 then some (a, RStatus.due)
         else if d < 0 then some (a, RStatus.pastDue)
         else if d ≤ (a.renewDateReminder : ℤ) then some (a, RStatus.approaching)
         else none) := by
    intro a d hd
    unfold reminderStep
    rw [hd]
  have hfst : ∀ (a e : Entry) (s : RStatus), reminderStep today a = some (e, s) →
      a = e := by
    intro a e s hfa
    rcases hda : daysUntil a.renewDate today with - | d
    · unfold reminderStep at hfa
      rw [hda] at hfa
      cases hfa
    · rw [hstep a d hda] at hfa
      by_cases h0 : d = 0
      · rw [if_pos h0] at hfa
        cases hfa
        rfl
      · rw [if_neg h0] at hfa
        by_cases hneg : d < 0
        · rw [if_pos hneg] at hfa
          cases hfa
          rfl
        · rw [if_neg hneg] at hfa
          by_cases hle : d ≤ (a.renewDateReminder : ℤ)
          · rw [if_pos hle] at hfa
            cases hfa
            rfl
          · rw [if_neg hle] at hfa
            cases hfa
  constructor
  · intro e s
    unfold reminderEntries
    rw [List.mem_mergeSort, List.mem_filterMap]
    constructor
    · rintro ⟨a, ha, hfa⟩
      obtain ⟨hmem, hcond⟩ := List.mem_filter.mp ha
      simp only [Bool.and_eq_true, decide_eq_true_iff, Option.isSome_iff_exists] at hcond
      obtain ⟨hpos, d, hd⟩ := hcond
      rw [hstep a d hd] at hfa
      by_cases h0 : d = 0
      · rw [if_pos h0] at hfa
        simp only [Option.some.injEq, Prod.mk.injEq] at hfa
        obtain ⟨rfl, rfl⟩ := hfa
        exact ⟨hmem, hpos, d, hd, Or.inl (by omega), by rw [if_pos h0]⟩
      · rw [if_neg h0] at hfa
        by_cases hneg : d < 0
        · rw [if_pos hneg] at hfa
          simp only [Option.some.injEq, Prod.mk.injEq] at hfa
          obtain ⟨rfl, rfl⟩ := hfa
          exact ⟨hmem, hpos, d, hd, Or.inl (by omega),
            by rw [if_neg h0, if_pos hneg]⟩
        · rw [if_neg hneg] at hfa
          by_cases hle : d ≤ (a.renewDateReminder : ℤ)
          · rw [if_pos hle] at hfa
            simp only [Option.some.injEq, Prod.mk.injEq] at hfa
            obtain ⟨rfl, rfl⟩ := hfa
            exact ⟨hmem, hpos, d, hd, Or.inr hle,
              by rw [if_neg h0, if_neg hneg]⟩
          · rw [if_neg hle] at hfa
            cases hfa
    · rintro ⟨hmem, hpos, d, hd, hwin, hs⟩
      refine ⟨e, List.mem_filter.mpr ⟨hmem, ?_⟩, ?_⟩
      · simp only [Bool.and_eq_true, decide_eq_true_iff, Option.isSome_iff_exists]
        exact ⟨hpos, d, hd⟩
      · rw [hstep e d hd]
        by_cases h0 : d = 0
        · rw [if_pos h0, hs, if_pos h0]
        · rw [if_neg h0]
          by_cases hneg : d < 0
          · rw [if_pos hneg, hs, if_neg h0, if_pos hneg]
          · rw [if_neg hneg]
            have hle : d ≤ (e.renewDateReminder : ℤ) := by
              rcases hwin with h | h
              · omega
              · exact h
            rw [if_pos hle, hs, if_neg h0, if_neg hneg]
  · -- sortedness of the final sort, via the attached renewal instants
    unfold reminderEntries
    set l2 := (entries.filter (fun e =>
        decide (0 < e.renewDateReminder) && (daysUntil e.renewDate today).isSome)).filterMap
      (reminderStep today) with hl2
    have hpar : ∀ x ∈ l2, (jsDateMs x.1.renewDate).isSome := by
      intro x hx
      rw [hl2] at hx
      obtain ⟨a, ha, hfa⟩ := List.mem_filterMap.mp hx
      obtain ⟨-, hcond⟩ := List.mem_filter.mp ha
      simp only [Bool.and_eq_true, decide_eq_true_iff] at hcond
      have hsome := (hDU a.renewDate).mp hcond.2
      have hx1 : a = x.1 := hfst a x.1 x.2 (by rw [hfa])
      rw [← hx1]
      exact hsome
    set msR : Entry × RStatus → ℤ := fun x => (jsDateMs x.1.renewDate).getD 0 with hmsR
    set f2 : Entry × RStatus → (Entry × RStatus) × ℤ := fun x => (x, msR x) with hf2
    set le' : (Entry × RStatus) × ℤ → (Entry × RStatus) × ℤ → Bool :=
      fun x y => decide (x.2 ≤ y.2) with hle2
    have hcomm : ∀ a ∈ l2, ∀ b ∈ l2, remLe a b = le' (f2 a) (f2 b) := by
      intro a ha b hb
      obtain ⟨ra, hra⟩ := Option.isSome_iff_exists.mp (hpar a ha)
      obtain ⟨rb, hrb⟩ := Option.isSome_iff_exists.mp (hpar b hb)
      unfold remLe
      simp only [hra, hrb, hle2, hf2, hmsR]
      simp [hra, hrb]
    have hmap : (l2.mergeSort remLe).map f2 = (l2.map f2).mergeSort le' :=
      List.map_mergeSort hcomm
    have hsorted : ((l2.map f2).mergeSort le').Pairwise (fun x y => le' x y) :=
      List.sorted_mergeSort
        (by intro x y z h1 h2; simp only [hle2, decide_eq_true_iff] at h1 h2 ⊢; omega)
        (by intro x y; simp only [hle2, Bool.or_eq_true, decide_eq_true_iff]; omega)
        (l2.map f2)
    rw [← hmap] at hsorted
    have := List.pairwise_map.mp hsorted
    refine this.imp ?_
    intro x y h
    simp only [hle2, hf2, hmsR, decide_eq_true_iff] at h
    exact h

/-- C3 witness: today 2025-06-10, renewal 2025-06-13 with a five-day
reminder gives status Approaching. -/
theorem C3_reminders_witness :
    (remEntry, RStatus.approaching) ∈ reminderEntries [remEntry] "2025-06-10" :=
  ((C3_reminders [remEntry] "2025-06-10" (86400000 * 20249) (by decide)).1
    remEntry RStatus.approaching).mpr
    ⟨by decide, by decide, 3, by decide, Or.inr (by decide), by decide⟩

/-- C5 counterexample: the CSV row for an entry whose `property` field
contains a double quote leaves that quote unescaped (and renders
`monthYear` as `"Jun 2025"`, not `"Jun-2025"`): the produced row
differs from the row the claim describes. -/
theorem C5_counterexample :
    csvRow quoteEntry =
      "\"e2\",\"2025-06-10\",\"Expense\",\"Maintenance\",\"5\",\"Five\",\"Ann\",\"c\",\"Jun 2025\",\"\",\"5\",\"A\"B\"" ∧
    csvRow quoteEntry ≠
      "\"e2\",\"2025-06-10\",\"Expense\",\"Maintenance\",\"5\",\"Five\",\"Ann\",\"c\",\"Jun-2025\",\"\",\"5\",\"A\"\"B\"" :=
  ⟨by decide, by decide⟩

/-- C5 amended: the CSV export emits exactly one row per filtered
entry, in order, with the fixed column order id, date, type, category,
amount, amountInWords, name, contact, monthYear, renewDate,
renewDateReminder, property; every field is wrapped in double quotes,
but only `amountInWords`, `name` and `contact` have embedded double
quotes doubled (the other fields are emitted verbatim); `monthYear` is
rendered as `"MMM yyyy"` (short month, space, full year) of the entry's
date, or `"Invalid Date"` when the date does not parse. -/
theorem C5_amended (filtered : List Entry) :
    csvContent filtered = joinSep "\n" (csvHeader :: filtered.map csvRow) ∧
    (filtered.map csvRow).length = filtered.length ∧
    (∀ e, csvRow e = joinSep ","
      [csvQuote e.id, csvQuote e.date, csvQuote (typeStr e.type), csvQuote e.category,
       csvQuote (ratToString e.amount),
       csvQuote (escapeQuotes (numberToWordsIndianQ e.amount)),
       csvQuote (escapeQuotes e.name), csvQuote (escapeQuotes e.contact),
       csvQuote (monthYearStr e.date), csvQuote e.renewDate,
       csvQuote (toString e.renewDateReminder), csvQuote e.property]) ∧
    (∀ s, (escapeQuotes s).data.count '"' = 2 * s.data.count '"') ∧
    (∀ s y m d, parseISODate s = some (y, m, d) →
      monthYearStr s = monthShort.getD (m - 1) "" ++ " " ++ toString y) := by
  refine ⟨rfl, by simp, fun e => rfl, escapeQuotes_count, ?_⟩
  intro s y m d h
  unfold monthYearStr
  rw [h]

/-- C5 amended witness: the month-year rendering applied at a concrete
parsed date. -/
theorem C5_amended_witness :
    parseISODate "2025-06-10" = some (2025, 6, 10) ∧
    monthYearStr "2025-06-10" = monthShort.getD (6 - 1) "" ++ " " ++ toString 2025 :=
  ⟨by decide, (C5_amended []).2.2.2.2 "2025-06-10" 2025 6 10 (by decide)⟩

/-- C7 amended witness: the concrete unparsable-date entry under the
all-unset filter. -/
theorem C7_amended_witness :
    jsDateMs badDateEntry.date = none ∧
    settingsPred "" emptyFilter badDateEntry = false ∧
    badDateEntry ∉ filterEntries "" emptyFilter [badDateEntry] :=
  ⟨by decide, (C7_amended "" emptyFilter badDateEntry (by decide)).1,
    (C7_amended "" emptyFilter badDateEntry (by decide)).2 [badDateEntry]⟩

end FinTracker
